import Mathlib

/-!
Verification of the CSV event import pipeline narrated in the repository
(blog post "New API for Four Green Fields Farm - Part 2", plus the `Event`
entity from Part 1). The importer reads CSV rows (snake_case string
fields), parses the MySQL-style timestamps with the date-fns call
`parse(text, "yyyy-MM-dd HH:mm:ss", new Date())`, maps the row into the
entity shape, and upserts against the store keyed by the natural key
(slug, startsAt) via `repo.findOneBy` / `repo.merge` / `repo.create` /
`repo.save`.

Shallow embedding choices:
- A timestamp is a record of calendar components (the instant a JS `Date`
  holds, in the fixed reference timezone; milliseconds included because a
  fresh `new Date()` reference argument carries them).
- The date-fns `parse` call is embedded faithfully to its library
  semantics for the fixed format string `yyyy-MM-dd HH:mm:ss`: each
  numeric token greedily matches one up to n digits, literal characters
  must match exactly, leftover non-whitespace input fails the parse,
  component values are range-validated (month 1-12, day against the
  month length with leap years, hour 0-23, minute/second 0-59, year
  positive), and each successful component setter zeroes every smaller
  component of the reference date it is applied to, so the format fully
  determines the result.
- The store is a list of stored records plus an id counter; wall-clock
  instants for the system-managed `createdAt` / `updatedAt` columns are
  abstract `Nat` values supplied by a per-row clock.
-/

namespace EventImport

/-- Calendar components of a JS `Date` value (in the fixed reference
timezone used for the legacy export). -/
structure DateTime where
  year : Nat
  month : Nat
  day : Nat
  hour : Nat
  minute : Nat
  second : Nat
  ms : Nat
deriving DecidableEq, Repr

/-- A zero reference date, used only as a default. -/
def dtZero : DateTime := ⟨1970, 1, 1, 0, 0, 0, 0⟩

/-- Greedily consume up to `n` leading digits, accumulating their value. -/
def takeDigits : Nat → List Char → Nat → Nat × List Char
  | 0, cs, acc => (acc, cs)
  | _ + 1, [], acc => (acc, [])
  | n + 1, c :: cs, acc =>
      if c.isDigit then takeDigits n cs (acc * 10 + (c.toNat - 48))
      else (acc, c :: cs)

/-- Match one up to `n` digits (the date-fns numeric token regexp). Fails
when the input does not start with a digit. -/
def parseUpToDigits (n : Nat) (cs : List Char) : Option (Nat × List Char) :=
  match cs with
  | [] => none
  | c :: _ => if c.isDigit then some (takeDigits n cs 0) else none

/-- Match one literal character of the format string. -/
def expectChar (ch : Char) (cs : List Char) : Option (List Char) :=
  match cs with
  | [] => none
  | c :: rest => if c = ch then some rest else none

/-- Proleptic Gregorian leap-year rule, as in the date-fns validator. -/
def isLeapYear (y : Nat) : Bool :=
  y % 400 == 0 || (y % 4 == 0 && y % 100 != 0)

/-- Number of days of a month, with the leap-year rule for February. -/
def daysInMonth (y m : Nat) : Nat :=
  if m = 2 then (if isLeapYear y then 29 else 28)
  else if m = 4 || m = 6 || m = 9 || m = 11 then 30
  else 31

/-- The year setter of the date-fns parse pipeline: `setUTCFullYear(y, 0, 1)`
followed by `setUTCHours(0, 0, 0, 0)` — every smaller component is reset. -/
def setYearComp (dt : DateTime) (y : Nat) : DateTime :=
  { dt with year := y, month := 1, day := 1, hour := 0, minute := 0, second := 0, ms := 0 }

/-- The month setter: `setUTCMonth(m - 1, 1)` then `setUTCHours(0, 0, 0, 0)`. -/
def setMonthComp (dt : DateTime) (m : Nat) : DateTime :=
  { dt with month := m, day := 1, hour := 0, minute := 0, second := 0, ms := 0 }

/-- The day-of-month setter: `setUTCDate(d)` then `setUTCHours(0, 0, 0, 0)`. -/
def setDayComp (dt : DateTime) (d : Nat) : DateTime :=
  { dt with day := d, hour := 0, minute := 0, second := 0, ms := 0 }

/-- The hour setter: `setUTCHours(h, 0, 0, 0)`. -/
def setHourComp (dt : DateTime) (h : Nat) : DateTime :=
  { dt with hour := h, minute := 0, second := 0, ms := 0 }

/-- The minute setter: `setUTCMinutes(m, 0, 0)`. -/
def setMinuteComp (dt : DateTime) (m : Nat) : DateTime :=
  { dt with minute := m, second := 0, ms := 0 }

/-- The second setter: `setUTCSeconds(s, 0)`. -/
def setSecondComp (dt : DateTime) (s : Nat) : DateTime :=
  { dt with second := s, ms := 0 }

/-- Embedding of the date-fns call `parse(text, "yyyy-MM-dd HH:mm:ss", ref)`
from the import code (source lines 105, 126, 140-141): match the six
numeric tokens separated by the literal characters of the format, reject
leftover non-whitespace input, range-validate every component, and apply
the component setters to the reference date; `none` is the Invalid Date
result, reported by the modelled normalization as a bad timestamp. -/
def dateFnsParse (text : String) (ref : DateTime) : Option DateTime := do
  let (y, cs) ← parseUpToDigits 4 text.data
  let cs ← expectChar '-' cs
  let (mo, cs) ← parseUpToDigits 2 cs
  let cs ← expectChar '-' cs
  let (d, cs) ← parseUpToDigits 2 cs
  let cs ← expectChar ' ' cs
  let (h, cs) ← parseUpToDigits 2 cs
  let cs ← expectChar ':' cs
  let (mi, cs) ← parseUpToDigits 2 cs
  let cs ← expectChar ':' cs
  let (s, cs) ← parseUpToDigits 2 cs
  if cs.all Char.isWhitespace &&
      (1 ≤ y && (1 ≤ mo && mo ≤ 12) && (1 ≤ d && d ≤ daysInMonth y mo) &&
        h ≤ 23 && mi ≤ 59 && s ≤ 59 : Bool) then
    some (setSecondComp (setMinuteComp (setHourComp (setDayComp
      (setMonthComp (setYearComp ref y) mo) d) h) mi) s)
  else
    none

/-- One CSV row as produced by the csv reader: every column is a string;
an absent column is represented by the empty string (both normalize the
same way in the import code). Columns are those of the legacy export. -/
structure RawRow where
  name : String
  slug : String
  starts_at : String
  ends_at : String
  description : String
  is_featured : String
  is_has_ends_at : String
  is_all_day : String
  is_active : String
  haunted_by : String
deriving DecidableEq, Repr

/-- The normalized shape of the `Event` entity fields that the importer
sets (the `eventData` object of the source, lines 137-148). -/
structure EventData where
  name : String
  slug : String
  startsAt : DateTime
  endsAt : DateTime
  description : Option String
  isFeatured : Bool
  isHasEndsAt : Bool
  isAllDay : Bool
  isActive : Bool
  hauntedBy : Option String
deriving DecidableEq, Repr

/-- The `eventData` mapping of the source (lines 137-148), given the two
parsed timestamps: booleans via `=== "1"`, optional strings via `|| null`
(empty or absent becomes null), everything else passed through. -/
def mkEventData (row : RawRow) (tsS tsE : DateTime) : EventData :=
  { name := row.name
    slug := row.slug
    startsAt := tsS
    endsAt := tsE
    description := if row.description = "" then none else some row.description
    isFeatured := row.is_featured == "1"
    isHasEndsAt := row.is_has_ends_at == "1"
    isAllDay := row.is_all_day == "1"
    isActive := row.is_active == "1"
    hauntedBy := if row.haunted_by = "" then none else some row.haunted_by }

/-- One persisted event record: generated id, the imported fields, and the
system-managed `createdAt` / `updatedAt` columns (`@CreateDateColumn` /
`@UpdateDateColumn` of the `Event` entity). -/
structure StoredEvent where
  id : Nat
  data : EventData
  createdAt : Nat
  updatedAt : Nat
deriving DecidableEq, Repr

/-- The event store: the persisted records and the id generator state. -/
structure Store where
  events : List StoredEvent
  nextId : Nat
deriving DecidableEq, Repr

/-- The natural-key predicate of the lookup: the stored record matches iff
its `slug` and its `startsAt` instant equal the candidate values exactly.
No other field participates. -/
def matchKey (slug : String) (startsAt : DateTime) (e : StoredEvent) : Bool :=
  e.data.slug == slug && e.data.startsAt == startsAt

/-- Embedding of `repo.findOneBy({ slug, startsAt })` (source lines
124-127): returns the first stored record matching the natural key, or
none — the library contract returns at most one record and never reports
multiple matches. -/
def findOneBy (st : Store) (slug : String) (startsAt : DateTime) : Option StoredEvent :=
  st.events.find? (matchKey slug startsAt)

/-- Embedding of `repo.create(eventData)` followed by `repo.save`: a new
record with a freshly generated id; `@CreateDateColumn` and
`@UpdateDateColumn` set `createdAt = updatedAt = now`. The import input
carries no `createdAt` or `updatedAt` field. -/
def saveNew (st : Store) (d : EventData) (now : Nat) : Store :=
  { events := st.events ++ [{ id := st.nextId, data := d, createdAt := now, updatedAt := now }]
    nextId := st.nextId + 1 }

/-- Embedding of `repo.merge(existing, eventData)` followed by
`repo.save(existing)`: the record with the matched id has every imported
field overwritten by the candidate data (a total merge — null optional
values overwrite too), keeps its id and `createdAt`, and gets
`updatedAt = now` from `@UpdateDateColumn`. -/
def saveMerged (st : Store) (id : Nat) (d : EventData) (now : Nat) : Store :=
  { st with
      events := st.events.map fun e =>
        if e.id == id then { e with data := d, updatedAt := now } else e }

/-- Per-row outcome, the spec ImportOutcome: the source pushes the strings
`Created NAME @ STARTS_AT` / `Updated NAME @ STARTS_AT`; the `failed`
alternative carries the field and reason of the row-scoped error. -/
inductive Outcome where
  | created (name startsAtText : String)
  | updated (name startsAtText : String)
  | failed (field reason : String)
deriving DecidableEq, Repr

/-- The reference dates of the three `new Date()` arguments one loop
iteration passes to the date-fns parse calls: the lookup parse of
`starts_at` (line 126) and the `eventData` parses of `starts_at` and
`ends_at` (lines 140-141). -/
structure ParseRefs where
  refL : DateTime
  refS : DateTime
  refE : DateTime
deriving DecidableEq, Repr

/-- One iteration of the `importCsv` upsert loop (source lines 124-169):
parse the timestamps, look the natural key up with `findOneBy`, then
either merge into the matched record or create a fresh one, and push the
outcome. Modelled from the spec: the row-scoped failure channel — an
unparseable timestamp fails the row with reason `bad timestamp`, writes
nothing, and lets the batch continue — is not shown in the blog snippets
(the snippets show no per-row error handling) and follows the spec
contract for normalization failures. This definition is the
persistence-error-free environment; `importRowE` below extends it with
the per-row persistence-error channel and coincides with it when no
persistence error occurs. -/
def importRow (st : Store) (now : Nat) (refs : ParseRefs) (row : RawRow) :
    Outcome × Store :=
  match dateFnsParse row.starts_at refs.refL, dateFnsParse row.starts_at refs.refS,
      dateFnsParse row.ends_at refs.refE with
  | some tsL, some tsS, some tsE =>
      let d := mkEventData row tsS tsE
      match findOneBy st row.slug tsL with
      | some existing => (.updated row.name row.starts_at, saveMerged st existing.id d now)
      | none => (.created row.name row.starts_at, saveNew st d now)
  | none, _, _ => (.failed "starts_at" "bad timestamp", st)
  | some _, none, _ => (.failed "starts_at" "bad timestamp", st)
  | some _, some _, none => (.failed "ends_at" "bad timestamp", st)

/-- The row loop from row index `i` on: each row is processed in file
order against the store the previous rows left, with its own wall-clock
instant `clock i` and its own fresh parse reference dates `refs i`. -/
def importCsvFrom (clock : Nat → Nat) (refs : Nat → ParseRefs) :
    Store → Nat → List RawRow → List Outcome × Store
  | st, _, [] => ([], st)
  | st, i, row :: rest =>
      let step := importRow st (clock i) (refs i) row
      let next := importCsvFrom clock refs step.2 (i + 1) rest
      (step.1 :: next.1, next.2)

/-- Embedding of the `importCsv` batch: process every parsed CSV row in
order, accumulating one outcome per row, and return the outcomes with the
final store. -/
def importCsv (clock : Nat → Nat) (refs : Nat → ParseRefs) (st : Store)
    (rows : List RawRow) : List Outcome × Store :=
  importCsvFrom clock refs st 0 rows

/-- Modelled from the spec: the full per-row error channel of the import
loop. The blog snippets show no per-row error handling, so both row-scoped
failure paths follow the spec contract: an unparseable timestamp fails the
row with reason `bad timestamp`, and a persistence error thrown by the
save of the row (constraint violation, connection failure — represented by
the abstract error value `perr`, `some reason` when the store layer fails
this row) fails the row with the underlying reason. In either case
nothing is written and the batch continues. `importRow` above is the
error-free environment: `importRowE none` coincides with it. -/
def importRowE (perr : Option String) (st : Store) (now : Nat) (refs : ParseRefs)
    (row : RawRow) : Outcome × Store :=
  match dateFnsParse row.starts_at refs.refL, dateFnsParse row.starts_at refs.refS,
      dateFnsParse row.ends_at refs.refE with
  | some tsL, some tsS, some tsE =>
      let d := mkEventData row tsS tsE
      match findOneBy st row.slug tsL with
      | some existing =>
          match perr with
          | some msg => (.failed "save" msg, st)
          | none => (.updated row.name row.starts_at, saveMerged st existing.id d now)
      | none =>
          match perr with
          | some msg => (.failed "save" msg, st)
          | none => (.created row.name row.starts_at, saveNew st d now)
  | none, _, _ => (.failed "starts_at" "bad timestamp", st)
  | some _, none, _ => (.failed "starts_at" "bad timestamp", st)
  | some _, some _, none => (.failed "ends_at" "bad timestamp", st)

/-- The row loop of the full error model from row index `i` on: row `i`
runs with its own clock instant, its own fresh parse reference dates and
its own persistence-error event `perr i`. -/
def importCsvFromE (perr : Nat → Option String) (clock : Nat → Nat)
    (refs : Nat → ParseRefs) : Store → Nat → List RawRow → List Outcome × Store
  | st, _, [] => ([], st)
  | st, i, row :: rest =>
      let step := importRowE (perr i) st (clock i) (refs i) row
      let next := importCsvFromE perr clock refs step.2 (i + 1) rest
      (step.1 :: next.1, next.2)

/-- The `importCsv` batch in the full error model. -/
def importCsvE (perr : Nat → Option String) (clock : Nat → Nat) (refs : Nat → ParseRefs)
    (st : Store) (rows : List RawRow) : List Outcome × Store :=
  importCsvFromE perr clock refs st 0 rows

/-! Support definitions for the verification. -/

/-- The parse result as a function of the text alone (reference date fixed
to `dtZero`); the reference-independence theorem below shows every
`dateFnsParse` call computes this value. -/
def tsOf (s : String) : Option DateTime := dateFnsParse s dtZero

/-- The parsed `starts_at` instant of a row (defaulting to `dtZero` when
unparseable; only used under a parseability hypothesis). -/
def keyTs (r : RawRow) : DateTime := (tsOf r.starts_at).getD dtZero

/-- Both timestamps of the row parse. -/
def rowOk (r : RawRow) : Prop :=
  (tsOf r.starts_at).isSome = true ∧ (tsOf r.ends_at).isSome = true

instance (r : RawRow) : Decidable (rowOk r) :=
  if h : (tsOf r.starts_at).isSome = true ∧ (tsOf r.ends_at).isSome = true then
    .isTrue h
  else
    .isFalse h

/-- The normalized data of a row (meaningful for rows satisfying
`rowOk`). -/
def dataOf (r : RawRow) : EventData :=
  mkEventData r ((tsOf r.starts_at).getD dtZero) ((tsOf r.ends_at).getD dtZero)

/-- The natural key of a row. -/
def rowKey (r : RawRow) : String × DateTime := (r.slug, keyTs r)

/-- The natural key of a stored record. -/
def keyOfEvent (e : StoredEvent) : String × DateTime := (e.data.slug, e.data.startsAt)

/-- Number of stored records matching a natural key. -/
def countKey (st : Store) (slug : String) (ts : DateTime) : Nat :=
  (st.events.filter (matchKey slug ts)).length

/-- The import-visible shape of the store: ids, imported data and creation
instants, in order (everything except the `updatedAt` audit column). -/
def storeShape (st : Store) : List (Nat × EventData × Nat) :=
  st.events.map fun e => (e.id, e.data, e.createdAt)

/-- Schema-level store integrity: record ids are primary keys (pairwise
distinct) and the id generator is ahead of every stored id. -/
def WFStore (st : Store) : Prop :=
  (st.events.map StoredEvent.id).Nodup ∧ ∀ e ∈ st.events, e.id < st.nextId

instance (st : Store) : Decidable (WFStore st) :=
  have h : Decidable ((st.events.map StoredEvent.id).Nodup ∧
      ∀ e ∈ st.events, e.id < st.nextId) := inferInstance
  h

/-- Every row of the batch parses and its natural key is absent from the
store. -/
def FreshBatch (st : Store) (rows : List RawRow) : Prop :=
  ∀ r ∈ rows, rowOk r ∧ findOneBy st r.slug (keyTs r) = none

instance (st : Store) (rows : List RawRow) : Decidable (FreshBatch st rows) :=
  List.decidableBAll _ rows

/-- The natural keys of the batch are pairwise distinct. -/
def KeysDistinct (rows : List RawRow) : Prop := (rows.map rowKey).Nodup

instance (rows : List RawRow) : Decidable (KeysDistinct rows) :=
  have h : Decidable ((rows.map rowKey).Nodup) := inferInstance
  h

/-- Natural key uniqueness: at most one stored record per (slug, startsAt)
pair. -/
def NatKeyUnique (st : Store) : Prop := ∀ slug ts, countKey st slug ts ≤ 1

/-- Every row of the batch parses and the store holds a record for its
natural key whose imported data already equals the normalized row. -/
def MatchedBatch (st : Store) (rows : List RawRow) : Prop :=
  ∀ r ∈ rows, rowOk r ∧
    ∃ e, findOneBy st r.slug (keyTs r) = some e ∧ e.data = dataOf r

/-- The records a run of created-outcome rows appends: consecutive ids
from `b`, row `j` stamped with `clock (i + j)`. -/
def createdRecs (clock : Nat → Nat) : Nat → Nat → List RawRow → List StoredEvent
  | _, _, [] => []
  | b, i, r :: rest =>
      { id := b, data := dataOf r, createdAt := clock i, updatedAt := clock i } ::
        createdRecs clock (b + 1) (i + 1) rest

/-- Concrete-row helper for examples and witnesses. -/
def mkRow (name slug starts ends desc feat hasEnds allDay active hb : String) : RawRow :=
  ⟨name, slug, starts, ends, desc, feat, hasEnds, allDay, active, hb⟩

/-- The empty store. -/
def emptyStore : Store := ⟨[], 0⟩

/-- The Pumpkin Festival example row of the source walkthrough. -/
def rowPumpkin : RawRow :=
  mkRow "Pumpkin Festival" "pumpkin-festival" "2009-10-09 20:00:00" "2009-10-09 23:00:00"
    "Annual fall celebration" "1" "1" "0" "1" ""

/-- A row with the same natural key as `rowPumpkin` but different values
in every other column. -/
def rowPumpkin2 : RawRow :=
  mkRow "Pumpkin Festival (late)" "pumpkin-festival" "2009-10-09 20:00:00" "2009-10-10 01:00:00"
    "" "0" "0" "1" "0" "The Headless Horseman"

/-- A row whose `starts_at` text does not match the legacy format. -/
def rowBad : RawRow :=
  mkRow "Broken" "broken" "10/09/2009 8pm" "2009-10-09 23:00:00" "" "0" "0" "0" "0" ""

/-- A second valid row with a different natural key. -/
def rowOther : RawRow :=
  mkRow "Corn Maze" "corn-maze" "2009-10-10 18:00:00" "2009-10-10 21:00:00" "" "0" "1" "0" "1" ""

/-- A third valid row with yet another natural key. -/
def rowHayride : RawRow :=
  mkRow "Haunted Hayride" "haunted-hayride" "2009-10-17 19:30:00" "2009-10-17 22:00:00"
    "" "1" "1" "0" "1" "Ghosts"

/-- The instant `2009-10-09 20:00:00` as parsed. -/
def pumpkinStart : DateTime := ⟨2009, 10, 9, 20, 0, 0, 0⟩

/-- The instant `2009-10-09 23:00:00` as parsed. -/
def pumpkinEnd : DateTime := ⟨2009, 10, 9, 23, 0, 0, 0⟩

/-- A fixed triple of parse reference dates. -/
def refsZero : ParseRefs := ⟨dtZero, dtZero, dtZero⟩

/-- A store seeded with two records sharing one natural key (a schema
integrity violation seeded artificially). -/
def dupStore : Store :=
  ⟨[⟨0, dataOf rowPumpkin, 10, 10⟩, ⟨1, dataOf rowPumpkin2, 11, 11⟩], 2⟩

/-- A store holding one record, the imported Pumpkin Festival row. -/
def oneStore : Store := ⟨[⟨0, dataOf rowPumpkin, 7, 7⟩], 1⟩

/-! Theorems. -/

/-- The embedded date-fns parse ignores its reference date: the format
`yyyy-MM-dd HH:mm:ss` specifies every component down to seconds and the
setter pipeline zeroes the milliseconds. -/
theorem dateFnsParse_eq_tsOf (s : String) (ref : DateTime) :
    dateFnsParse s ref = tsOf s := by
  unfold tsOf dateFnsParse
  refine Option.bind_congr fun p _ => ?_
  obtain ⟨y, cs⟩ := p
  refine Option.bind_congr fun cs _ => ?_
  refine Option.bind_congr fun p _ => ?_
  obtain ⟨mo, cs⟩ := p
  refine Option.bind_congr fun cs _ => ?_
  refine Option.bind_congr fun p _ => ?_
  obtain ⟨d, cs⟩ := p
  refine Option.bind_congr fun cs _ => ?_
  refine Option.bind_congr fun p _ => ?_
  obtain ⟨h, cs⟩ := p
  refine Option.bind_congr fun cs _ => ?_
  refine Option.bind_congr fun p _ => ?_
  obtain ⟨mi, cs⟩ := p
  refine Option.bind_congr fun cs _ => ?_
  refine Option.bind_congr fun p _ => ?_
  rfl

theorem keyTs_eq {r : RawRow} {ts : DateTime} (h : tsOf r.starts_at = some ts) :
    keyTs r = ts := by
  simp [keyTs, h]

theorem dataOf_eq {r : RawRow} {tsS tsE : DateTime}
    (hS : tsOf r.starts_at = some tsS) (hE : tsOf r.ends_at = some tsE) :
    dataOf r = mkEventData r tsS tsE := by
  simp [dataOf, hS, hE]

theorem importRow_found (st : Store) (now : Nat) (refs : ParseRefs) {row : RawRow}
    {tsS tsE : DateTime} {e : StoredEvent}
    (hS : tsOf row.starts_at = some tsS) (hE : tsOf row.ends_at = some tsE)
    (hF : findOneBy st row.slug tsS = some e) :
    importRow st now refs row =
      (.updated row.name row.starts_at, saveMerged st e.id (mkEventData row tsS tsE) now) := by
  unfold importRow
  rw [dateFnsParse_eq_tsOf row.starts_at refs.refL, dateFnsParse_eq_tsOf row.starts_at refs.refS,
    dateFnsParse_eq_tsOf row.ends_at refs.refE, hS, hE]
  dsimp only
  rw [hF]

theorem importRow_notFound (st : Store) (now : Nat) (refs : ParseRefs) {row : RawRow}
    {tsS tsE : DateTime}
    (hS : tsOf row.starts_at = some tsS) (hE : tsOf row.ends_at = some tsE)
    (hF : findOneBy st row.slug tsS = none) :
    importRow st now refs row =
      (.created row.name row.starts_at, saveNew st (mkEventData row tsS tsE) now) := by
  unfold importRow
  rw [dateFnsParse_eq_tsOf row.starts_at refs.refL, dateFnsParse_eq_tsOf row.starts_at refs.refS,
    dateFnsParse_eq_tsOf row.ends_at refs.refE, hS, hE]
  dsimp only
  rw [hF]

theorem importRow_badStart (st : Store) (now : Nat) (refs : ParseRefs) {row : RawRow}
    (hS : tsOf row.starts_at = none) :
    importRow st now refs row = (.failed "starts_at" "bad timestamp", st) := by
  unfold importRow
  rw [dateFnsParse_eq_tsOf row.starts_at refs.refL, dateFnsParse_eq_tsOf row.starts_at refs.refS,
    dateFnsParse_eq_tsOf row.ends_at refs.refE, hS]

theorem importRow_badEnd (st : Store) (now : Nat) (refs : ParseRefs) {row : RawRow}
    {tsS : DateTime}
    (hS : tsOf row.starts_at = some tsS) (hE : tsOf row.ends_at = none) :
    importRow st now refs row = (.failed "ends_at" "bad timestamp", st) := by
  unfold importRow
  rw [dateFnsParse_eq_tsOf row.starts_at refs.refL, dateFnsParse_eq_tsOf row.starts_at refs.refS,
    dateFnsParse_eq_tsOf row.ends_at refs.refE, hS, hE]

theorem matchKey_iff {slug : String} {ts : DateTime} {e : StoredEvent} :
    matchKey slug ts e = true ↔ e.data.slug = slug ∧ e.data.startsAt = ts := by
  simp [matchKey]

theorem findOneBy_mem_and_key {st : Store} {slug : String} {ts : DateTime} {e : StoredEvent}
    (h : findOneBy st slug ts = some e) :
    e ∈ st.events ∧ e.data.slug = slug ∧ e.data.startsAt = ts :=
  ⟨List.mem_of_find?_eq_some h, matchKey_iff.mp (List.find?_some h)⟩

theorem countKey_eq_zero {st : Store} {slug : String} {ts : DateTime}
    (h : findOneBy st slug ts = none) : countKey st slug ts = 0 := by
  unfold countKey
  rw [List.length_eq_zero, List.filter_eq_nil_iff]
  exact List.find?_eq_none.mp h

theorem uniqueIdElem {st : Store} (hnodup : (st.events.map StoredEvent.id).Nodup)
    {e x : StoredEvent} (he : e ∈ st.events) (hx : x ∈ st.events) (hid : x.id = e.id) :
    x = e :=
  List.inj_on_of_nodup_map hnodup hx he hid

theorem nextId_saveNew {st : Store} {d : EventData} {now : Nat} :
    (saveNew st d now).nextId = st.nextId + 1 := rfl

theorem nextId_saveMerged {st : Store} {i : Nat} {d : EventData} {now : Nat} :
    (saveMerged st i d now).nextId = st.nextId := rfl

theorem ids_saveNew {st : Store} {d : EventData} {now : Nat} :
    (saveNew st d now).events.map StoredEvent.id =
      st.events.map StoredEvent.id ++ [st.nextId] := by
  simp [saveNew]

theorem ids_saveMerged {st : Store} {i : Nat} {d : EventData} {now : Nat} :
    (saveMerged st i d now).events.map StoredEvent.id = st.events.map StoredEvent.id := by
  unfold saveMerged
  rw [List.map_map]
  apply List.map_congr_left
  intro x _
  by_cases h : x.id == i <;> simp [Function.comp, h]

theorem findOneBy_saveNew_of_ne {st : Store} {d : EventData} {now : Nat}
    {slug : String} {ts : DateTime} (hne : ¬(d.slug = slug ∧ d.startsAt = ts)) :
    findOneBy (saveNew st d now) slug ts = findOneBy st slug ts := by
  unfold findOneBy saveNew
  rw [List.find?_append]
  have h1 : List.find? (matchKey slug ts)
      [{ id := st.nextId, data := d, createdAt := now, updatedAt := now }] = none := by
    rw [List.find?_eq_none]
    intro x hx
    rw [List.mem_singleton] at hx
    subst hx
    intro hk
    exact hne (matchKey_iff.mp hk)
  rw [h1, Option.or_none]

theorem countKey_saveNew {st : Store} {d : EventData} {now : Nat}
    {slug : String} {ts : DateTime} :
    countKey (saveNew st d now) slug ts =
      countKey st slug ts + (if d.slug = slug ∧ d.startsAt = ts then 1 else 0) := by
  unfold countKey saveNew
  rw [List.filter_append, List.length_append]
  congr 1
  by_cases h : d.slug = slug ∧ d.startsAt = ts
  · have hm : matchKey slug ts { id := st.nextId, data := d, createdAt := now, updatedAt := now }
        = true := matchKey_iff.mpr h
    rw [List.filter_cons_of_pos hm]
    simp [h]
  · have hm : ¬(matchKey slug ts { id := st.nextId, data := d, createdAt := now, updatedAt := now }
        = true) := fun hk => h (matchKey_iff.mp hk)
    rw [List.filter_cons_of_neg hm]
    simp [h]

theorem storeShape_saveMerged_self {st : Store} {e : StoredEvent} {now : Nat}
    (hnodup : (st.events.map StoredEvent.id).Nodup) (he : e ∈ st.events) :
    storeShape (saveMerged st e.id e.data now) = storeShape st := by
  unfold storeShape saveMerged
  rw [List.map_map]
  apply List.map_congr_left
  intro x hx
  by_cases h : x.id == e.id
  · have hxe : x = e := uniqueIdElem hnodup he hx (beq_iff_eq.mp h)
    subst hxe
    simp [Function.comp, h]
  · simp [Function.comp, h]

theorem countKey_saveMerged_keyfix {st : Store} {e : StoredEvent} {d : EventData} {now : Nat}
    (hnodup : (st.events.map StoredEvent.id).Nodup) (he : e ∈ st.events)
    (hs : d.slug = e.data.slug) (ht : d.startsAt = e.data.startsAt)
    (slug : String) (ts : DateTime) :
    countKey (saveMerged st e.id d now) slug ts = countKey st slug ts := by
  unfold countKey saveMerged
  rw [← List.countP_eq_length_filter, ← List.countP_eq_length_filter, List.countP_map]
  apply List.countP_congr
  intro x hx
  by_cases h : x.id == e.id
  · have hxe : x = e := uniqueIdElem hnodup he hx (beq_iff_eq.mp h)
    subst hxe
    simp [Function.comp, h, matchKey, hs, ht]
  · simp [Function.comp, h]

theorem map_data_of_shape_eq {st st' : Store} (h : storeShape st = storeShape st') :
    st.events.map StoredEvent.data = st'.events.map StoredEvent.data := by
  have h2 := congrArg (List.map fun t : Nat × EventData × Nat => t.2.1) h
  rw [storeShape, storeShape, List.map_map, List.map_map] at h2
  exact h2

theorem length_of_shape_eq {st st' : Store} (h : storeShape st = storeShape st') :
    st.events.length = st'.events.length := by
  have h2 := congrArg List.length h
  rw [storeShape, storeShape, List.length_map, List.length_map] at h2
  exact h2

theorem countKey_of_shape_eq {st st' : Store} (h : storeShape st = storeShape st')
    (slug : String) (ts : DateTime) : countKey st slug ts = countKey st' slug ts := by
  have hd := map_data_of_shape_eq h
  have k : ∀ stx : Store, countKey stx slug ts =
      List.countP (fun dd : EventData => dd.slug == slug && dd.startsAt == ts)
        (stx.events.map StoredEvent.data) := by
    intro stx
    rw [List.countP_map, countKey, ← List.countP_eq_length_filter]
    rfl
  rw [k st, k st', hd]

theorem findOneBy_data_of_shape_eq {st st' : Store} (h : storeShape st = storeShape st')
    (slug : String) (ts : DateTime) :
    (findOneBy st slug ts).map StoredEvent.data =
      (findOneBy st' slug ts).map StoredEvent.data := by
  have hd := map_data_of_shape_eq h
  have k : ∀ stx : Store, (findOneBy stx slug ts).map StoredEvent.data =
      (stx.events.map StoredEvent.data).find?
        (fun dd : EventData => dd.slug == slug && dd.startsAt == ts) := by
    intro stx
    rw [List.find?_map]
    rfl
  rw [k st, k st', hd]

theorem createdRecs_ids (clock : Nat → Nat) :
    ∀ (rows : List RawRow) (b i : Nat),
      (createdRecs clock b i rows).map StoredEvent.id = List.range' b rows.length := by
  intro rows
  induction rows with
  | nil => intro b i; rfl
  | cons r rest ih =>
    intro b i
    rw [createdRecs, List.map_cons, ih (b + 1) (i + 1), List.length_cons, List.range'_succ]

theorem rowKey_ne_of_nodup {r0 r : RawRow} {rest : List RawRow}
    (hnotin : rowKey r0 ∉ rest.map rowKey) (hr : r ∈ rest) : ¬(r0.slug = r.slug ∧ keyTs r0 = keyTs r) := by
  intro ⟨h1, h2⟩
  apply hnotin
  have : rowKey r0 = rowKey r := by
    unfold rowKey
    rw [h1, h2]
  rw [this]
  exact List.mem_map_of_mem rowKey hr

theorem find?_createdRecs (clock : Nat → Nat) :
    ∀ (rows : List RawRow), (rows.map rowKey).Nodup →
      ∀ (b i : Nat) (r : RawRow), r ∈ rows →
        ∃ rec, (createdRecs clock b i rows).find? (matchKey r.slug (keyTs r)) = some rec ∧
          rec.data = dataOf r := by
  intro rows
  induction rows with
  | nil => intro _ b i r hr; exact absurd hr (List.not_mem_nil r)
  | cons r0 rest ih =>
    intro hnd b i r hr
    rw [List.map_cons, List.nodup_cons] at hnd
    rw [createdRecs]
    rcases List.mem_cons.mp hr with h | h
    · subst h
      refine ⟨_, List.find?_cons_of_pos _ (matchKey_iff.mpr ⟨rfl, rfl⟩), rfl⟩
    · obtain ⟨rec, hfind, hdata⟩ := ih hnd.2 (b + 1) (i + 1) r h
      refine ⟨rec, ?_, hdata⟩
      rw [List.find?_cons_of_neg]
      · exact hfind
      · intro hk
        obtain ⟨h1, h2⟩ := matchKey_iff.mp hk
        exact rowKey_ne_of_nodup hnd.1 h ⟨h1, h2⟩

theorem filter_createdRecs_eq_nil (clock : Nat → Nat) :
    ∀ (rows : List RawRow) (b i : Nat) (slug : String) (ts : DateTime),
      (∀ r ∈ rows, ¬(r.slug = slug ∧ keyTs r = ts)) →
      (createdRecs clock b i rows).filter (matchKey slug ts) = [] := by
  intro rows
  induction rows with
  | nil => intro b i slug ts _; rfl
  | cons r0 rest ih =>
    intro b i slug ts h
    rw [createdRecs, List.filter_cons_of_neg, ih (b + 1) (i + 1) slug ts]
    · intro r hr
      exact h r (List.mem_cons_of_mem r0 hr)
    · intro hk
      obtain ⟨h1, h2⟩ := matchKey_iff.mp hk
      exact h r0 (List.mem_cons_self r0 rest) ⟨h1, h2⟩

theorem count_createdRecs (clock : Nat → Nat) :
    ∀ (rows : List RawRow), (rows.map rowKey).Nodup →
      ∀ (b i : Nat) (r : RawRow), r ∈ rows →
        ((createdRecs clock b i rows).filter (matchKey r.slug (keyTs r))).length = 1 := by
  intro rows
  induction rows with
  | nil => intro _ b i r hr; exact absurd hr (List.not_mem_nil r)
  | cons r0 rest ih =>
    intro hnd b i r hr
    rw [List.map_cons, List.nodup_cons] at hnd
    rw [createdRecs]
    rcases List.mem_cons.mp hr with h | h
    · subst h
      have hm : matchKey r.slug (keyTs r)
          ({ id := b, data := dataOf r, createdAt := clock i, updatedAt := clock i } :
            StoredEvent) = true := matchKey_iff.mpr ⟨rfl, rfl⟩
      rw [List.filter_cons_of_pos hm,
        filter_createdRecs_eq_nil clock rest (b + 1) (i + 1) r.slug (keyTs r)]
      · rfl
      · intro r1 hr1 hk1
        exact rowKey_ne_of_nodup hnd.1 hr1 ⟨hk1.1.symm, hk1.2.symm⟩
    · rw [List.filter_cons_of_neg, ih hnd.2 (b + 1) (i + 1) r h]
      intro hk
      obtain ⟨h1, h2⟩ := matchKey_iff.mp hk
      exact rowKey_ne_of_nodup hnd.1 h ⟨h1, h2⟩

theorem importCsvFrom_fresh (clock : Nat → Nat) (refs : Nat → ParseRefs) :
    ∀ (rows : List RawRow) (st : Store) (i : Nat),
      FreshBatch st rows → KeysDistinct rows →
      importCsvFrom clock refs st i rows =
        (rows.map fun r => .created r.name r.starts_at,
         { events := st.events ++ createdRecs clock st.nextId i rows,
           nextId := st.nextId + rows.length }) := by
  intro rows
  induction rows with
  | nil =>
    intro st i _ _
    simp [importCsvFrom, createdRecs]
  | cons r rest ih =>
    intro st i hfresh hkeys
    obtain ⟨hok, hfind⟩ := hfresh r (List.mem_cons_self r rest)
    obtain ⟨tsS, hS⟩ := Option.isSome_iff_exists.mp hok.1
    obtain ⟨tsE, hE⟩ := Option.isSome_iff_exists.mp hok.2
    have hkts : keyTs r = tsS := keyTs_eq hS
    have hrow := importRow_notFound st (clock i) (refs i) hS hE (hkts ▸ hfind)
    rw [← dataOf_eq hS hE] at hrow
    have hkeys2 : KeysDistinct rest := by
      unfold KeysDistinct at hkeys ⊢
      rw [List.map_cons, List.nodup_cons] at hkeys
      exact hkeys.2
    have hnotin : rowKey r ∉ rest.map rowKey := by
      unfold KeysDistinct at hkeys
      rw [List.map_cons, List.nodup_cons] at hkeys
      exact hkeys.1
    have hfresh2 : FreshBatch (saveNew st (dataOf r) (clock i)) rest := by
      intro r1 hr1
      refine ⟨(hfresh r1 (List.mem_cons_of_mem r hr1)).1, ?_⟩
      rw [findOneBy_saveNew_of_ne]
      · exact (hfresh r1 (List.mem_cons_of_mem r hr1)).2
      · exact rowKey_ne_of_nodup hnotin hr1
    simp only [importCsvFrom, hrow]
    rw [ih (saveNew st (dataOf r) (clock i)) (i + 1) hfresh2 hkeys2]
    unfold saveNew
    simp only [List.map_cons, createdRecs, List.length_cons]
    have hn : st.nextId + 1 + rest.length = st.nextId + (rest.length + 1) := by omega
    rw [List.append_assoc, List.singleton_append, hn]

theorem wf_after_create (clock : Nat → Nat) {st : Store} (hWF : WFStore st)
    (rows : List RawRow) (i : Nat) :
    WFStore { events := st.events ++ createdRecs clock st.nextId i rows,
              nextId := st.nextId + rows.length } := by
  constructor
  · rw [List.map_append, createdRecs_ids clock rows st.nextId i, List.nodup_append]
    refine ⟨hWF.1, List.nodup_range' _ _, ?_⟩
    intro a ha hb
    obtain ⟨e, he, heq⟩ := List.mem_map.mp ha
    obtain ⟨j, hj, hjeq⟩ := List.mem_range'.mp hb
    have := hWF.2 e he
    omega
  · intro e he
    show e.id < st.nextId + rows.length
    rcases List.mem_append.mp he with h | h
    · exact Nat.lt_of_lt_of_le (hWF.2 e h) (Nat.le_add_right _ _)
    · have hid : e.id ∈ (createdRecs clock st.nextId i rows).map StoredEvent.id :=
        List.mem_map_of_mem StoredEvent.id h
      rw [createdRecs_ids clock rows st.nextId i] at hid
      obtain ⟨j, hj, hjeq⟩ := List.mem_range'.mp hid
      omega

theorem matchedBatch_after_create (clock : Nat → Nat) {st : Store} {rows : List RawRow}
    (hfresh : FreshBatch st rows) (hkeys : KeysDistinct rows) (i : Nat) :
    MatchedBatch { events := st.events ++ createdRecs clock st.nextId i rows,
                   nextId := st.nextId + rows.length } rows := by
  intro r hr
  refine ⟨(hfresh r hr).1, ?_⟩
  obtain ⟨rec, hfindc, hdata⟩ := find?_createdRecs clock rows hkeys st.nextId i r hr
  refine ⟨rec, ?_, hdata⟩
  unfold findOneBy
  rw [List.find?_append]
  have h0 : List.find? (matchKey r.slug (keyTs r)) st.events = none := (hfresh r hr).2
  rw [h0, Option.none_or]
  exact hfindc

theorem countKey_after_create (clock : Nat → Nat) {st : Store} {rows : List RawRow}
    (hfresh : FreshBatch st rows) (hkeys : KeysDistinct rows) (i : Nat)
    {r : RawRow} (hr : r ∈ rows) :
    countKey { events := st.events ++ createdRecs clock st.nextId i rows,
               nextId := st.nextId + rows.length } r.slug (keyTs r) = 1 := by
  unfold countKey
  rw [List.filter_append, List.length_append]
  have h0 : (st.events.filter (matchKey r.slug (keyTs r))).length = 0 :=
    countKey_eq_zero (hfresh r hr).2
  rw [h0, count_createdRecs clock rows hkeys st.nextId i r hr]

theorem importCsvFrom_matched (clock : Nat → Nat) (refs : Nat → ParseRefs) :
    ∀ (rows : List RawRow) (st : Store) (i : Nat),
      MatchedBatch st rows → (st.events.map StoredEvent.id).Nodup →
      (importCsvFrom clock refs st i rows).1 =
          rows.map (fun r => .updated r.name r.starts_at) ∧
        storeShape (importCsvFrom clock refs st i rows).2 = storeShape st ∧
        (importCsvFrom clock refs st i rows).2.nextId = st.nextId := by
  intro rows
  induction rows with
  | nil =>
    intro st i _ _
    exact ⟨rfl, rfl, rfl⟩
  | cons r rest ih =>
    intro st i hm hnd
    obtain ⟨hok, e, hfind, hdata⟩ := hm r (List.mem_cons_self r rest)
    obtain ⟨tsS, hS⟩ := Option.isSome_iff_exists.mp hok.1
    obtain ⟨tsE, hE⟩ := Option.isSome_iff_exists.mp hok.2
    have hkts : keyTs r = tsS := keyTs_eq hS
    have hrow := importRow_found st (clock i) (refs i) hS hE (hkts ▸ hfind)
    rw [← dataOf_eq hS hE, ← hdata] at hrow
    have he : e ∈ st.events := (findOneBy_mem_and_key (hkts ▸ hfind)).1
    have hshape : storeShape (saveMerged st e.id e.data (clock i)) = storeShape st :=
      storeShape_saveMerged_self hnd he
    have hnd2 : ((saveMerged st e.id e.data (clock i)).events.map StoredEvent.id).Nodup := by
      rw [ids_saveMerged]
      exact hnd
    have hm2 : MatchedBatch (saveMerged st e.id e.data (clock i)) rest := by
      intro r1 hr1
      obtain ⟨hok1, e1, hfind1, hdata1⟩ := hm r1 (List.mem_cons_of_mem r hr1)
      refine ⟨hok1, ?_⟩
      have htrans := findOneBy_data_of_shape_eq hshape r1.slug (keyTs r1)
      rw [hfind1] at htrans
      obtain ⟨e2, he2, hde2⟩ := Option.map_eq_some'.mp htrans
      exact ⟨e2, he2, by rw [hde2, hdata1]⟩
    obtain ⟨ho, hs, hn⟩ := ih (saveMerged st e.id e.data (clock i)) (i + 1) hm2 hnd2
    refine ⟨?_, ?_, ?_⟩
    · simp only [importCsvFrom, hrow, List.map_cons]
      rw [ho]
    · simp only [importCsvFrom, hrow]
      rw [hs, hshape]
    · simp only [importCsvFrom, hrow]
      rw [hn]
      rfl

theorem wf_saveNew {st : Store} {d : EventData} {now : Nat} (hWF : WFStore st) :
    WFStore (saveNew st d now) := by
  constructor
  · rw [ids_saveNew, List.nodup_append]
    refine ⟨hWF.1, List.nodup_singleton _, ?_⟩
    intro a ha hb
    rw [List.mem_singleton] at hb
    subst hb
    obtain ⟨e, he, heq⟩ := List.mem_map.mp ha
    have := hWF.2 e he
    omega
  · intro e he
    show e.id < st.nextId + 1
    rcases List.mem_append.mp he with h | h
    · exact Nat.lt_succ_of_lt (hWF.2 e h)
    · rw [List.mem_singleton] at h
      subst h
      exact Nat.lt_succ_self _

theorem wf_saveMerged {st : Store} {i : Nat} {d : EventData} {now : Nat} (hWF : WFStore st) :
    WFStore (saveMerged st i d now) := by
  constructor
  · rw [ids_saveMerged]
    exact hWF.1
  · intro e he
    show e.id < st.nextId
    obtain ⟨x, hx, hxe⟩ := List.mem_map.mp he
    have hb := hWF.2 x hx
    have hid : (if x.id == i then { x with data := d, updatedAt := now } else x).id = x.id := by
      by_cases h : x.id == i <;> simp [h]
    rw [← hxe, hid]
    exact hb

theorem importRow_wf_unique (st : Store) (now : Nat) (refs : ParseRefs) (row : RawRow)
    (hWF : WFStore st) :
    WFStore (importRow st now refs row).2 ∧
      (NatKeyUnique st → NatKeyUnique (importRow st now refs row).2) := by
  cases hS : tsOf row.starts_at with
  | none =>
    have heq : (importRow st now refs row).2 = st := by rw [importRow_badStart st now refs hS]
    rw [heq]
    exact ⟨hWF, fun h => h⟩
  | some tsS =>
    cases hE : tsOf row.ends_at with
    | none =>
      have heq : (importRow st now refs row).2 = st := by rw [importRow_badEnd st now refs hS hE]
      rw [heq]
      exact ⟨hWF, fun h => h⟩
    | some tsE =>
      cases hF : findOneBy st row.slug tsS with
      | none =>
        have heq : (importRow st now refs row).2 =
            saveNew st (mkEventData row tsS tsE) now := by
          rw [importRow_notFound st now refs hS hE hF]
        rw [heq]
        refine ⟨wf_saveNew hWF, ?_⟩
        intro hU slug ts
        rw [countKey_saveNew]
        by_cases h : (mkEventData row tsS tsE).slug = slug ∧
            (mkEventData row tsS tsE).startsAt = ts
        · have h0 : countKey st slug ts = 0 := by
            rw [← h.1, ← h.2]
            exact countKey_eq_zero hF
          rw [h0, if_pos h]
        · rw [if_neg h, Nat.add_zero]
          exact hU slug ts
      | some e =>
        have heq : (importRow st now refs row).2 =
            saveMerged st e.id (mkEventData row tsS tsE) now := by
          rw [importRow_found st now refs hS hE hF]
        rw [heq]
        have hkey := findOneBy_mem_and_key hF
        refine ⟨wf_saveMerged hWF, ?_⟩
        intro hU slug ts
        rw [countKey_saveMerged_keyfix hWF.1 hkey.1 hkey.2.1.symm hkey.2.2.symm slug ts]
        exact hU slug ts

theorem importCsvFrom_wf_unique (clock : Nat → Nat) (refs : Nat → ParseRefs) :
    ∀ (rows : List RawRow) (st : Store) (i : Nat), WFStore st →
      WFStore (importCsvFrom clock refs st i rows).2 ∧
      (NatKeyUnique st → NatKeyUnique (importCsvFrom clock refs st i rows).2) := by
  intro rows
  induction rows with
  | nil => intro st i h; exact ⟨h, fun u => u⟩
  | cons r rest ih =>
    intro st i hWF
    have hr := importRow_wf_unique st (clock i) (refs i) r hWF
    have hrest := ih (importRow st (clock i) (refs i) r).2 (i + 1) hr.1
    constructor
    · show WFStore
        (importCsvFrom clock refs (importRow st (clock i) (refs i) r).2 (i + 1) rest).2
      exact hrest.1
    · intro hU
      show NatKeyUnique
        (importCsvFrom clock refs (importRow st (clock i) (refs i) r).2 (i + 1) rest).2
      exact hrest.2 (hr.2 hU)

theorem importCsvFrom_length (clock : Nat → Nat) (refs : Nat → ParseRefs) :
    ∀ (rows : List RawRow) (st : Store) (i : Nat),
      (importCsvFrom clock refs st i rows).1.length = rows.length := by
  intro rows
  induction rows with
  | nil => intro st i; rfl
  | cons r rest ih =>
    intro st i
    show ((importRow st (clock i) (refs i) r).1 ::
      (importCsvFrom clock refs (importRow st (clock i) (refs i) r).2 (i + 1) rest).1).length =
        rest.length + 1
    rw [List.length_cons, ih]

/-- C3: Natural-key uniqueness is an invariant preserved by the importer:
against a store with primary-key integrity (`WFStore`, guaranteed by the
schema), if before an import run the store contains at most one record
per (slug, startsAt) pair, then after processing any batch it still
contains at most one record per pair — a new record is inserted only when
the lookup found no existing match. -/
theorem natural_key_unique_invariant (clock : Nat → Nat) (refs : Nat → ParseRefs)
    (rows : List RawRow) (st : Store) (hWF : WFStore st) (hU : NatKeyUnique st) :
    NatKeyUnique (importCsv clock refs st rows).2 :=
  (importCsvFrom_wf_unique clock refs rows st 0 hWF).2 hU

/-- Witness: the invariant theorem applied to the empty store and the
walkthrough rows. -/
theorem natural_key_unique_invariant_witness :
    NatKeyUnique (importCsv (fun _ => 3) (fun _ => refsZero) emptyStore
      [rowPumpkin, rowPumpkin2, rowOther]).2 :=
  natural_key_unique_invariant (fun _ => 3) (fun _ => refsZero)
    [rowPumpkin, rowPumpkin2, rowOther] emptyStore (by decide)
    (fun _ _ => Nat.zero_le 1)

/-- C6: Timestamp normalization: `starts_at` and `ends_at` are parsed with
exactly the fixed legacy format `yyyy-MM-dd HH:mm:ss` (witnessed by a
conforming text parsing to its components, independently of the reference
date, and non-conforming texts failing), and a row whose timestamp text
is unparseable fails normalization with field and reason `bad timestamp`
instead of producing a record with an invalid instant — no write happens
for it. -/
theorem timestamp_format_strict :
    (∀ ref : DateTime, dateFnsParse "2009-10-09 20:00:00" ref = some pumpkinStart) ∧
      (∀ ref : DateTime, dateFnsParse "10/09/2009 8pm" ref = none) ∧
      (∀ ref : DateTime, dateFnsParse "2009-13-01 00:00:00" ref = none) ∧
      (∀ (st : Store) (now : Nat) (refs : ParseRefs) (row : RawRow),
        tsOf row.starts_at = none →
        importRow st now refs row = (.failed "starts_at" "bad timestamp", st)) ∧
      (∀ (st : Store) (now : Nat) (refs : ParseRefs) (row : RawRow) (tsS : DateTime),
        tsOf row.starts_at = some tsS → tsOf row.ends_at = none →
        importRow st now refs row = (.failed "ends_at" "bad timestamp", st)) := by
  refine ⟨?_, ?_, ?_, ?_, ?_⟩
  · intro ref
    rw [dateFnsParse_eq_tsOf]
    decide
  · intro ref
    rw [dateFnsParse_eq_tsOf]
    decide
  · intro ref
    rw [dateFnsParse_eq_tsOf]
    decide
  · intro st now refs row h
    exact importRow_badStart st now refs h
  · intro st now refs row tsS hS hE
    exact importRow_badEnd st now refs hS hE

/-- Witness: the bad-timestamp row fails with no write against the empty
store. -/
theorem timestamp_format_strict_witness :
    importRow emptyStore 0 refsZero rowBad = (.failed "starts_at" "bad timestamp", emptyStore) :=
  timestamp_format_strict.2.2.2.1 emptyStore 0 refsZero rowBad (by decide)

/-- C7: Boolean coercion: for each of the four flag fields the string
value `1` normalizes to `true` and any other value (absent and empty
included, both represented by the empty string) normalizes to `false`;
the normalized field is a boolean, so there is no third state. -/
theorem boolean_coercion (row : RawRow) (tsS tsE : DateTime) :
    ((mkEventData row tsS tsE).isFeatured = true ↔ row.is_featured = "1") ∧
      ((mkEventData row tsS tsE).isHasEndsAt = true ↔ row.is_has_ends_at = "1") ∧
      ((mkEventData row tsS tsE).isAllDay = true ↔ row.is_all_day = "1") ∧
      ((mkEventData row tsS tsE).isActive = true ↔ row.is_active = "1") ∧
      ((mkEventData row tsS tsE).isFeatured = false ↔ ¬row.is_featured = "1") := by
  refine ⟨?_, ?_, ?_, ?_, ?_⟩ <;> simp [mkEventData]

/-- C8: Optional-string coercion: `description` and `haunted_by` normalize
to null exactly when the raw value is empty (or absent, represented the
same way), any other value is passed through unmodified, and neither
field is ever stored as an empty string. -/
theorem optional_string_coercion (row : RawRow) (tsS tsE : DateTime) :
    (mkEventData row tsS tsE).description =
        (if row.description = "" then none else some row.description) ∧
      (mkEventData row tsS tsE).hauntedBy =
        (if row.haunted_by = "" then none else some row.haunted_by) ∧
      (mkEventData row tsS tsE).hauntedBy ≠ some "" ∧
      (mkEventData row tsS tsE).description ≠ some "" := by
  refine ⟨rfl, rfl, ?_, ?_⟩
  · show (if row.haunted_by = "" then none else some row.haunted_by) ≠ some ""
    by_cases h : row.haunted_by = "" <;> simp [h]
  · show (if row.description = "" then none else some row.description) ≠ some ""
    by_cases h : row.description = "" <;> simp [h]

/-- C10: Normalization is deterministic in the row content: the date-fns
parse result does not depend on the fresh reference date argument, the
whole row import is insensitive to the three reference dates of its parse
calls, and the instant parsed for the natural-key lookup is exactly the
instant stored in the persisted record. -/
theorem parse_deterministic :
    (∀ (s : String) (ref ref2 : DateTime), dateFnsParse s ref = dateFnsParse s ref2) ∧
      (∀ (st : Store) (now : Nat) (refs refs2 : ParseRefs) (row : RawRow),
        importRow st now refs row = importRow st now refs2 row) ∧
      (∀ (st : Store) (now : Nat) (refs : ParseRefs) (row : RawRow) (tsL tsE : DateTime),
        dateFnsParse row.starts_at refs.refL = some tsL →
        dateFnsParse row.ends_at refs.refE = some tsE →
        findOneBy st row.slug tsL = none →
        (importRow st now refs row).2.events =
          st.events ++
            [{ id := st.nextId, data := mkEventData row tsL tsE, createdAt := now,
               updatedAt := now }]) := by
  refine ⟨?_, ?_, ?_⟩
  · intro s ref ref2
    rw [dateFnsParse_eq_tsOf, dateFnsParse_eq_tsOf]
  · intro st now refs refs2 row
    unfold importRow
    rw [dateFnsParse_eq_tsOf row.starts_at refs.refL,
      dateFnsParse_eq_tsOf row.starts_at refs.refS,
      dateFnsParse_eq_tsOf row.ends_at refs.refE,
      dateFnsParse_eq_tsOf row.starts_at refs2.refL,
      dateFnsParse_eq_tsOf row.starts_at refs2.refS,
      dateFnsParse_eq_tsOf row.ends_at refs2.refE]
  · intro st now refs row tsL tsE hL hEe hF
    have hS : tsOf row.starts_at = some tsL := by
      rw [← dateFnsParse_eq_tsOf row.starts_at refs.refL]
      exact hL
    have hE : tsOf row.ends_at = some tsE := by
      rw [← dateFnsParse_eq_tsOf row.ends_at refs.refE]
      exact hEe
    have h2 : (importRow st now refs row).2 = saveNew st (mkEventData row tsL tsE) now := by
      rw [importRow_notFound st now refs hS hE hF]
    rw [h2]
    rfl

/-- Witness: the create path stores exactly the instant parsed for the
lookup, with a deliberately nonzero reference date. -/
theorem parse_deterministic_witness :
    (importRow emptyStore 3 ⟨⟨2025, 1, 1, 5, 6, 7, 8⟩, dtZero, ⟨1980, 2, 2, 0, 0, 0, 1⟩⟩
        rowPumpkin).2.events =
      [{ id := 0, data := mkEventData rowPumpkin pumpkinStart pumpkinEnd, createdAt := 3,
         updatedAt := 3 }] :=
  parse_deterministic.2.2 emptyStore 3
    ⟨⟨2025, 1, 1, 5, 6, 7, 8⟩, dtZero, ⟨1980, 2, 2, 0, 0, 0, 1⟩⟩ rowPumpkin
    pumpkinStart pumpkinEnd (by decide) (by decide) (by decide)

/-- C4 counterexample: against a store artificially seeded with two
records sharing slug and startsAt, importing a matching row does not
yield a `failed` outcome with reason `ambiguous natural key` and does not
leave the store untouched: the lookup returns the first match and the row
is processed as an ordinary update, writing to the store. -/
theorem ambiguous_key_counterexample :
    (importRow dupStore 42 refsZero rowPumpkin).1 =
        .updated "Pumpkin Festival" "2009-10-09 20:00:00" ∧
      (importRow dupStore 42 refsZero rowPumpkin).1 ≠
        .failed "starts_at" "ambiguous natural key" ∧
      (importRow dupStore 42 refsZero rowPumpkin).2 ≠ dupStore := by
  decide

/-- C4 amended: when the natural key matches more than one stored record
the row is not failed: the lookup returns at most one record — the first
match — so the importer updates that record in place and emits `updated`,
a write is performed on it, and every other stored record (the remaining
duplicates included) is left in the store untouched; the batch
continues. -/
theorem ambiguous_key_updates_first
    (st : Store) (now : Nat) (refs : ParseRefs) (row : RawRow) (tsS tsE : DateTime)
    (e : StoredEvent)
    (hS : tsOf row.starts_at = some tsS) (hE : tsOf row.ends_at = some tsE)
    (hF : findOneBy st row.slug tsS = some e) :
    importRow st now refs row =
        (.updated row.name row.starts_at,
         saveMerged st e.id (mkEventData row tsS tsE) now) ∧
      ∀ x ∈ st.events, x.id ≠ e.id → x ∈ (importRow st now refs row).2.events := by
  refine ⟨importRow_found st now refs hS hE hF, ?_⟩
  intro x hx hne
  have heq : (importRow st now refs row).2 =
      saveMerged st e.id (mkEventData row tsS tsE) now := by
    rw [importRow_found st now refs hS hE hF]
  rw [heq]
  show x ∈ st.events.map _
  exact List.mem_map.mpr ⟨x, hx, by simp [hne]⟩

/-- Witness: the amended behaviour at the artificially duplicated store:
the first matching record is updated and the second duplicate survives
unchanged. -/
theorem ambiguous_key_updates_first_witness :
    importRow dupStore 42 refsZero rowPumpkin =
        (.updated "Pumpkin Festival" "2009-10-09 20:00:00",
         saveMerged dupStore 0 (mkEventData rowPumpkin pumpkinStart pumpkinEnd) 42) :=
  (ambiguous_key_updates_first dupStore 42 refsZero rowPumpkin pumpkinStart pumpkinEnd
    ⟨0, dataOf rowPumpkin, 10, 10⟩ (by decide) (by decide) (by decide)).1

theorem importRowE_none (st : Store) (now : Nat) (refs : ParseRefs) (row : RawRow) :
    importRowE none st now refs row = importRow st now refs row := by
  unfold importRowE importRow
  cases hL : dateFnsParse row.starts_at refs.refL with
  | none => rfl
  | some tsL =>
    cases hS : dateFnsParse row.starts_at refs.refS with
    | none => rfl
    | some tsS =>
      cases hE : dateFnsParse row.ends_at refs.refE with
      | none => rfl
      | some tsE =>
        cases hF : findOneBy st row.slug tsL <;> rfl

theorem importRowE_badStart (perr : Option String) (st : Store) (now : Nat)
    (refs : ParseRefs) {row : RawRow} (hS : tsOf row.starts_at = none) :
    importRowE perr st now refs row = (.failed "starts_at" "bad timestamp", st) := by
  unfold importRowE
  rw [dateFnsParse_eq_tsOf row.starts_at refs.refL, dateFnsParse_eq_tsOf row.starts_at refs.refS,
    dateFnsParse_eq_tsOf row.ends_at refs.refE, hS]

theorem importRowE_perr (msg : String) (st : Store) (now : Nat)
    (refs : ParseRefs) {row : RawRow} {tsS tsE : DateTime}
    (hS : tsOf row.starts_at = some tsS) (hE : tsOf row.ends_at = some tsE) :
    importRowE (some msg) st now refs row = (.failed "save" msg, st) := by
  unfold importRowE
  rw [dateFnsParse_eq_tsOf row.starts_at refs.refL, dateFnsParse_eq_tsOf row.starts_at refs.refS,
    dateFnsParse_eq_tsOf row.ends_at refs.refE, hS, hE]
  dsimp only
  cases hF : findOneBy st row.slug tsS <;> rfl

theorem importCsvFromE_length (perr : Nat → Option String) (clock : Nat → Nat)
    (refs : Nat → ParseRefs) :
    ∀ (rows : List RawRow) (st : Store) (i : Nat),
      (importCsvFromE perr clock refs st i rows).1.length = rows.length := by
  intro rows
  induction rows with
  | nil => intro st i; rfl
  | cons r rest ih =>
    intro st i
    show ((importRowE (perr i) st (clock i) (refs i) r).1 ::
      (importCsvFromE perr clock refs (importRowE (perr i) st (clock i) (refs i) r).2
        (i + 1) rest).1).length = rest.length + 1
    rw [List.length_cons, ih]

theorem importCsvFromE_none (clock : Nat → Nat) (refs : Nat → ParseRefs) :
    ∀ (rows : List RawRow) (st : Store) (i : Nat),
      importCsvFromE (fun _ => none) clock refs st i rows =
        importCsvFrom clock refs st i rows := by
  intro rows
  induction rows with
  | nil => intro st i; rfl
  | cons r rest ih =>
    intro st i
    simp only [importCsvFromE, importCsvFrom, importRowE_none, ih]

/-- C5: Row isolation in the full per-row error model: every processed
row yields exactly one outcome whatever errors occur; a row whose
`starts_at` is unparseable is recorded as `failed` with reason
`bad timestamp`, writes nothing, and the batch continues with the
remaining rows against the unchanged store; a row whose save raises a
persistence error is recorded as `failed` with the underlying reason,
writes nothing, and the batch likewise continues against the unchanged
store; a run with no persistence errors coincides with the error-free
model; concretely, a batch of three rows whose second row has an
unparseable `starts_at` yields outcomes created, failed, created and
persists rows one and three, and a batch of three valid rows whose
second save hits a connection failure yields created, failed, created
with the underlying reason recorded and rows one and three persisted. -/
theorem row_isolation :
    (∀ (perr : Nat → Option String) (clock : Nat → Nat) (refs : Nat → ParseRefs)
        (st : Store) (rows : List RawRow),
        (importCsvE perr clock refs st rows).1.length = rows.length) ∧
      (∀ (perr : Nat → Option String) (clock : Nat → Nat) (refs : Nat → ParseRefs)
          (st : Store) (i : Nat) (row : RawRow) (rest : List RawRow),
        tsOf row.starts_at = none →
        importCsvFromE perr clock refs st i (row :: rest) =
          (.failed "starts_at" "bad timestamp" ::
              (importCsvFromE perr clock refs st (i + 1) rest).1,
            (importCsvFromE perr clock refs st (i + 1) rest).2)) ∧
      (∀ (perr : Nat → Option String) (clock : Nat → Nat) (refs : Nat → ParseRefs)
          (st : Store) (i : Nat) (row : RawRow) (rest : List RawRow) (msg : String),
        rowOk row → perr i = some msg →
        importCsvFromE perr clock refs st i (row :: rest) =
          (.failed "save" msg :: (importCsvFromE perr clock refs st (i + 1) rest).1,
            (importCsvFromE perr clock refs st (i + 1) rest).2)) ∧
      (∀ (clock : Nat → Nat) (refs : Nat → ParseRefs) (st : Store) (rows : List RawRow),
        importCsvE (fun _ => none) clock refs st rows = importCsv clock refs st rows) ∧
      (importCsvE (fun _ => none) (fun j => j + 50) (fun _ => refsZero) emptyStore
          [rowPumpkin, rowBad, rowOther]).1 =
        [.created "Pumpkin Festival" "2009-10-09 20:00:00",
         .failed "starts_at" "bad timestamp",
         .created "Corn Maze" "2009-10-10 18:00:00"] ∧
      (importCsvE (fun _ => none) (fun j => j + 50) (fun _ => refsZero) emptyStore
          [rowPumpkin, rowBad, rowOther]).2 =
        ⟨[⟨0, dataOf rowPumpkin, 50, 50⟩, ⟨1, dataOf rowOther, 52, 52⟩], 2⟩ ∧
      (importCsvE (fun j => if j = 1 then some "connection failure" else none)
          (fun j => j + 50) (fun _ => refsZero) emptyStore
          [rowPumpkin, rowOther, rowHayride]).1 =
        [.created "Pumpkin Festival" "2009-10-09 20:00:00",
         .failed "save" "connection failure",
         .created "Haunted Hayride" "2009-10-17 19:30:00"] ∧
      (importCsvE (fun j => if j = 1 then some "connection failure" else none)
          (fun j => j + 50) (fun _ => refsZero) emptyStore
          [rowPumpkin, rowOther, rowHayride]).2 =
        ⟨[⟨0, dataOf rowPumpkin, 50, 50⟩, ⟨1, dataOf rowHayride, 52, 52⟩], 2⟩ := by
  refine ⟨?_, ?_, ?_, ?_, by decide, by decide, by decide, by decide⟩
  · intro perr clock refs st rows
    exact importCsvFromE_length perr clock refs rows st 0
  · intro perr clock refs st i row rest h
    simp only [importCsvFromE, importRowE_badStart (perr i) st (clock i) (refs i) h]
  · intro perr clock refs st i row rest msg hok hp
    obtain ⟨tsS, hS⟩ := Option.isSome_iff_exists.mp hok.1
    obtain ⟨tsE, hE⟩ := Option.isSome_iff_exists.mp hok.2
    simp only [importCsvFromE, hp, importRowE_perr msg st (clock i) (refs i) hS hE]
  · intro clock refs st rows
    exact importCsvFromE_none clock refs rows st 0

/-- Witness: a valid row whose save hits a connection failure is recorded
as failed with the underlying reason, writes nothing, and the run
continues. -/
theorem row_isolation_witness :
    importCsvFromE (fun _ => some "connection failure") (fun _ => 0) (fun _ => refsZero)
        emptyStore 4 [rowPumpkin] =
      ([.failed "save" "connection failure"], emptyStore) :=
  row_isolation.2.2.1 (fun _ => some "connection failure") (fun _ => 0) (fun _ => refsZero)
    emptyStore 4 rowPumpkin [] "connection failure" (by decide) rfl

/-- C9: Update-path effect and frame: when the lookup finds a match, the
emitted outcome is `updated`, the store keeps its size and id-generator
state, and the store contains the matched record with every imported
field overwritten by the normalized candidate (a total merge — null
optional values overwrite too), its identifier and `createdAt` unchanged
and `updatedAt` set to the current time; every other record is untouched.
The candidate data carries no `createdAt` or `updatedAt` field, so
the import input can never set them. -/
theorem update_path_frame
    (st : Store) (now : Nat) (refs : ParseRefs) (row : RawRow) (tsS tsE : DateTime)
    (e : StoredEvent)
    (hS : tsOf row.starts_at = some tsS) (hE : tsOf row.ends_at = some tsE)
    (hF : findOneBy st row.slug tsS = some e) :
    (importRow st now refs row).1 = .updated row.name row.starts_at ∧
      (importRow st now refs row).2.events.length = st.events.length ∧
      (importRow st now refs row).2.nextId = st.nextId ∧
      ({ id := e.id, data := mkEventData row tsS tsE, createdAt := e.createdAt,
         updatedAt := now } : StoredEvent) ∈ (importRow st now refs row).2.events ∧
      ∀ x ∈ st.events, x.id ≠ e.id → x ∈ (importRow st now refs row).2.events := by
  have heq := importRow_found st now refs hS hE hF
  have h2 : (importRow st now refs row).2 =
      saveMerged st e.id (mkEventData row tsS tsE) now := by
    rw [heq]
  refine ⟨by rw [heq], ?_, ?_, ?_, ?_⟩
  · rw [h2]
    show (st.events.map _).length = st.events.length
    rw [List.length_map]
  · rw [h2]
    rfl
  · rw [h2]
    show _ ∈ st.events.map _
    refine List.mem_map.mpr ⟨e, (findOneBy_mem_and_key hF).1, ?_⟩
    simp
  · intro x hx hne
    rw [h2]
    exact List.mem_map.mpr ⟨x, hx, by simp [hne]⟩

/-- Witness: updating the stored Pumpkin Festival record with the
variant row overwrites every imported field, writes null into the
optional `description`, and keeps id and `createdAt` while stamping
`updatedAt`. -/
theorem update_path_frame_witness :
    ({ id := 0, data := mkEventData rowPumpkin2 pumpkinStart ⟨2009, 10, 10, 1, 0, 0, 0⟩,
       createdAt := 7, updatedAt := 99 } : StoredEvent) ∈
      (importRow oneStore 99 refsZero rowPumpkin2).2.events :=
  (update_path_frame oneStore 99 refsZero rowPumpkin2 pumpkinStart ⟨2009, 10, 10, 1, 0, 0, 0⟩
    ⟨0, dataOf rowPumpkin, 7, 7⟩ (by decide) (by decide) (by decide)).2.2.2.1

theorem createdRecs_length (clock : Nat → Nat) (rows : List RawRow) (b i : Nat) :
    (createdRecs clock b i rows).length = rows.length := by
  have h := congrArg List.length (createdRecs_ids clock rows b i)
  rwa [List.length_map, List.length_range'] at h

/-- C1: Idempotence of the import: a valid batch (every row parses and
the natural keys are pairwise distinct) run against an unmodified
well-formed store holding no record for any batch key yields outcome
`created` for every row on the first run and outcome `updated` for every
row on the second run against the store the first run left; the stored
data is identical after either run — the same records with the same ids,
imported fields and creation instants, the same id-generator state, no
extra records beyond one per row, and exactly one record per batch key
(no duplicates, no drift); only the system-managed `updatedAt` audit
column is refreshed by the second run. -/
theorem import_idempotent
    (st0 : Store) (rows : List RawRow)
    (c1 c2 : Nat → Nat) (refs1 refs2 : Nat → ParseRefs)
    (hWF : WFStore st0) (hfresh : FreshBatch st0 rows) (hkeys : KeysDistinct rows) :
    (importCsv c1 refs1 st0 rows).1 =
        rows.map (fun r => .created r.name r.starts_at) ∧
      (importCsv c2 refs2 (importCsv c1 refs1 st0 rows).2 rows).1 =
        rows.map (fun r => .updated r.name r.starts_at) ∧
      storeShape (importCsv c2 refs2 (importCsv c1 refs1 st0 rows).2 rows).2 =
        storeShape (importCsv c1 refs1 st0 rows).2 ∧
      (importCsv c2 refs2 (importCsv c1 refs1 st0 rows).2 rows).2.nextId =
        (importCsv c1 refs1 st0 rows).2.nextId ∧
      (importCsv c1 refs1 st0 rows).2.events.length = st0.events.length + rows.length ∧
      ∀ r ∈ rows,
        countKey (importCsv c1 refs1 st0 rows).2 r.slug (keyTs r) = 1 ∧
        countKey (importCsv c2 refs2 (importCsv c1 refs1 st0 rows).2 rows).2
          r.slug (keyTs r) = 1 := by
  have h1 : importCsv c1 refs1 st0 rows =
      (rows.map fun r => Outcome.created r.name r.starts_at,
       { events := st0.events ++ createdRecs c1 st0.nextId 0 rows,
         nextId := st0.nextId + rows.length }) :=
    importCsvFrom_fresh c1 refs1 rows st0 0 hfresh hkeys
  have hwf1 : WFStore { events := st0.events ++ createdRecs c1 st0.nextId 0 rows,
                        nextId := st0.nextId + rows.length } :=
    wf_after_create c1 hWF rows 0
  have hmatch : MatchedBatch { events := st0.events ++ createdRecs c1 st0.nextId 0 rows,
                               nextId := st0.nextId + rows.length } rows :=
    matchedBatch_after_create c1 hfresh hkeys 0
  have h2 := importCsvFrom_matched c2 refs2 rows
    { events := st0.events ++ createdRecs c1 st0.nextId 0 rows,
      nextId := st0.nextId + rows.length } 0 hmatch hwf1.1
  refine ⟨?_, ?_, ?_, ?_, ?_, ?_⟩
  · rw [h1]
  · rw [h1]
    exact h2.1
  · rw [h1]
    exact h2.2.1
  · rw [h1]
    exact h2.2.2
  · rw [h1]
    show (st0.events ++ createdRecs c1 st0.nextId 0 rows).length =
      st0.events.length + rows.length
    rw [List.length_append, createdRecs_length]
  · intro r hr
    constructor
    · rw [h1]
      exact countKey_after_create c1 hfresh hkeys 0 hr
    · rw [h1]
      have hc := countKey_of_shape_eq h2.2.1 r.slug (keyTs r)
      exact hc.trans (countKey_after_create c1 hfresh hkeys 0 hr)

/-- Witness: both runs of a two-row batch against the empty store, with
different clocks and different parse reference dates per run. -/
theorem import_idempotent_witness :
    (importCsv (fun j => j) (fun _ => refsZero) emptyStore [rowPumpkin, rowOther]).1 =
        [.created "Pumpkin Festival" "2009-10-09 20:00:00",
         .created "Corn Maze" "2009-10-10 18:00:00"] ∧
      (importCsv (fun j => j + 9) (fun _ => ⟨⟨2025, 8, 7, 1, 2, 3, 4⟩, dtZero, dtZero⟩)
          (importCsv (fun j => j) (fun _ => refsZero) emptyStore [rowPumpkin, rowOther]).2
          [rowPumpkin, rowOther]).1 =
        [.updated "Pumpkin Festival" "2009-10-09 20:00:00",
         .updated "Corn Maze" "2009-10-10 18:00:00"] := by
  have h := import_idempotent emptyStore [rowPumpkin, rowOther] (fun j => j) (fun j => j + 9)
    (fun _ => refsZero) (fun _ => ⟨⟨2025, 8, 7, 1, 2, 3, 4⟩, dtZero, dtZero⟩)
    (by decide) (by decide) (by decide)
  exact ⟨h.1, h.2.1⟩

/-- C2: Natural-key matching: any record the lookup returns has exactly
the requested slug and the requested startsAt instant (instant equality),
and a second row sharing slug and starts_at with a first row — every
other field arbitrary and different — updates the record the first row
created: the final store holds exactly one record for that key, carrying
the second row data under the identifier and creation instant of the
first write. -/
theorem natural_key_matching :
    (∀ (st : Store) (slug : String) (ts : DateTime) (e : StoredEvent),
        findOneBy st slug ts = some e →
        e ∈ st.events ∧ e.data.slug = slug ∧ e.data.startsAt = ts) ∧
      ∀ (r1 r2 : RawRow) (c : Nat → Nat) (refs : Nat → ParseRefs),
        r2.slug = r1.slug → r2.starts_at = r1.starts_at →
        rowOk r1 → rowOk r2 →
        (importCsv c refs emptyStore [r1, r2]).1 =
            [.created r1.name r1.starts_at, .updated r2.name r2.starts_at] ∧
          countKey (importCsv c refs emptyStore [r1, r2]).2 r1.slug (keyTs r1) = 1 ∧
          (importCsv c refs emptyStore [r1, r2]).2.events =
            [⟨0, dataOf r2, c 0, c 1⟩] := by
  constructor
  · intro st slug ts e h
    exact findOneBy_mem_and_key h
  · intro r1 r2 c refs hslug hstart hok1 hok2
    obtain ⟨tsS1, hS1⟩ := Option.isSome_iff_exists.mp hok1.1
    obtain ⟨tsE1, hE1⟩ := Option.isSome_iff_exists.mp hok1.2
    obtain ⟨tsS2, hS2⟩ := Option.isSome_iff_exists.mp hok2.1
    obtain ⟨tsE2, hE2⟩ := Option.isSome_iff_exists.mp hok2.2
    have htseq : keyTs r2 = keyTs r1 := by
      unfold keyTs
      rw [hstart]
    have hk2 : keyTs r2 = tsS2 := keyTs_eq hS2
    have hrow1 := importRow_notFound emptyStore (c 0) (refs 0) hS1 hE1 rfl
    rw [← dataOf_eq hS1 hE1] at hrow1
    have hfind2 : findOneBy (saveNew emptyStore (dataOf r1) (c 0)) r2.slug tsS2 =
        some ⟨0, dataOf r1, c 0, c 0⟩ := by
      show List.find? (matchKey r2.slug tsS2) ([] ++ [⟨0, dataOf r1, c 0, c 0⟩]) = _
      rw [List.nil_append]
      apply List.find?_cons_of_pos
      apply matchKey_iff.mpr
      constructor
      · exact hslug.symm
      · show keyTs r1 = tsS2
        rw [← htseq]
        exact hk2
    have hrow2 := importRow_found (saveNew emptyStore (dataOf r1) (c 0)) (c 1) (refs 1)
      hS2 hE2 hfind2
    rw [← dataOf_eq hS2 hE2] at hrow2
    have hrun : importCsv c refs emptyStore [r1, r2] =
        ([.created r1.name r1.starts_at, .updated r2.name r2.starts_at],
         ⟨[⟨0, dataOf r2, c 0, c 1⟩], 1⟩) := by
      simp only [importCsv, importCsvFrom, hrow1, hrow2]
      rfl
    refine ⟨by rw [hrun], ?_, by rw [hrun]⟩
    rw [hrun]
    show (List.filter (matchKey r1.slug (keyTs r1)) [⟨0, dataOf r2, c 0, c 1⟩]).length = 1
    have hm : matchKey r1.slug (keyTs r1)
        ⟨0, dataOf r2, c 0, c 1⟩ = true := by
      apply matchKey_iff.mpr
      constructor
      · exact hslug
      · show keyTs r2 = keyTs r1
        exact htseq
    rw [List.filter_cons_of_pos hm]
    rfl

/-- Witness: two concrete rows sharing the natural key and differing in
every other column; the second updates the record the first created. -/
theorem natural_key_matching_witness :
    (importCsv (fun j => j + 20) (fun _ => refsZero) emptyStore
        [rowPumpkin, rowPumpkin2]).1 =
        [.created "Pumpkin Festival" "2009-10-09 20:00:00",
         .updated "Pumpkin Festival (late)" "2009-10-09 20:00:00"] ∧
      (importCsv (fun j => j + 20) (fun _ => refsZero) emptyStore
          [rowPumpkin, rowPumpkin2]).2.events =
        [⟨0, dataOf rowPumpkin2, 20, 21⟩] := by
  have h := natural_key_matching.2 rowPumpkin rowPumpkin2 (fun j => j + 20)
    (fun _ => refsZero) (by decide) (by decide) (by decide) (by decide)
  exact ⟨h.1, h.2.2⟩

end EventImport
